import Mathlib

/-!
Verification development for the youtube-audio-extractor repository.

Shallow embedding of the pure algorithmic core of the repository:

* `src/youtube-parser.ts` — `YouTubeParser.extractVideoId` (three regex
  patterns) and `YouTubeParser.extractVideoInfo` (the ordered strategy
  chain with its terminal failure).
* `src/main.js` / `src/unnamed/part_002` — `ApifyYouTubeProxy.extractVideoId`
  (a single combined regex with a negative character class),
  `buildR2ObjectKey`, `buildCandidateKeys`, `findExistingR2Asset`,
  `buildObjectMetadata`, the cache-gated `extractYouTubeVideo` pipeline and
  the yt-dlp materialization step `extractViaYtDlp`.
* `src/unnamed/part_005` — `YtDlpExtractor.pickMinimalAudioFormat`.
* `src/test.ts` — `decodeSignatureCipher` together with the
  `URLSearchParams` / `decodeURIComponent` semantics it relies on.
* `src/unnamed/part_006` — the legacy streaming uploader
  `downloadAndUploadAudio` and its timestamped object key.

JavaScript strings are modelled as Lean `String` / `List Char`; JS numbers
appearing as bitrates are modelled as `ℚ`; absent (`undefined`) fields are
`Option`; the S3-compatible object store is an association list from keys to
objects with PUT-overwrite semantics; effects (subprocess results, clock
reads) are explicit parameters.  All definitions are computable.
-/

namespace YtAudio

/-! ### Identifier alphabet and tokens

`src/youtube-parser.ts` matches video ids with the character class
`[a-zA-Z0-9_-]{11}`. -/

/-- A character of the identifier alphabet `[A-Za-z0-9_-]`. -/
def isIdChar (c : Char) : Bool :=
  c.isAlpha || c.isDigit || c == '_' || c == '-'

/-- A well-formed identifier token: exactly 11 characters drawn from
`[A-Za-z0-9_-]`. -/
def WellFormedToken (t : List Char) : Prop :=
  t.length = 11 ∧ ∀ c ∈ t, isIdChar c = true

instance (t : List Char) : Decidable (WellFormedToken t) := by
  unfold WellFormedToken; infer_instance

/-- The regex fragment `([a-zA-Z0-9_-]{11})`: succeeds exactly when the next
eleven characters exist and are identifier characters (there is no
right-hand boundary after the group). -/
def takeToken (l : List Char) : Option (List Char) :=
  if (l.take 11).length = 11 && (l.take 11).all isIdChar then some (l.take 11)
  else none

/-! ### `YouTubeParser.extractVideoId` (src/youtube-parser.ts, lines 44–56)

```
const patterns = [
    /(?:youtube\.com\/watch\?v=|youtu\.be\/|youtube\.com\/embed\/)([a-zA-Z0-9_-]{11})/,
    /youtube\.com\/v\/([a-zA-Z0-9_-]{11})/,
    /youtube\.com\/.*[?&]v=([a-zA-Z0-9_-]{11})/,
]
for (const pattern of patterns) {
    const match = url.match(pattern)
    if (match) return match[1]
}
return null
```

Each pattern is embedded operationally: `String.match` finds the leftmost
starting position at which the pattern matches, alternatives are tried in
written order, and the greedy `.*` of the third pattern prefers the longest
newline-free gap. -/

/-- Literal prefix of pattern alternative `youtube\.com\/watch\?v=`. -/
def preWatch : List Char := "youtube.com/watch?v=".data

/-- Literal prefix of pattern alternative `youtu\.be\/`. -/
def preShort : List Char := "youtu.be/".data

/-- Literal prefix of pattern alternative `youtube\.com\/embed\/`. -/
def preEmbed : List Char := "youtube.com/embed/".data

/-- Literal prefix of the second pattern `youtube\.com\/v\/`. -/
def preVPath : List Char := "youtube.com/v/".data

/-- Literal prefix `youtube\.com\/` of the third pattern. -/
def preYtc : List Char := "youtube.com/".data

/-- Character-by-character test that `p` is a literal prefix of `l`, the way
a regex engine consumes a literal. -/
def startsWith : List Char → List Char → Bool
  | [], _ => true
  | _ :: _, [] => false
  | p :: ps, c :: cs => p == c && startsWith ps cs

/-- Match a literal prefix followed by the 11-character token group. -/
def matchPrefixToken (p l : List Char) : Option (List Char) :=
  if startsWith p l then takeToken (l.drop p.length) else none

/-- The first pattern, anchored at the current position: alternatives are
tried in written order. -/
def matchPat1At (l : List Char) : Option (List Char) :=
  (matchPrefixToken preWatch l).orElse fun _ =>
    (matchPrefixToken preShort l).orElse fun _ =>
      matchPrefixToken preEmbed l

/-- Regex scanning: try the anchored matcher at every position, leftmost
first (the empty suffix is also a position). -/
def scanPat (f : List Char → Option (List Char)) : List Char → Option (List Char)
  | [] => f []
  | c :: rest => (f (c :: rest)).orElse fun _ => scanPat f rest

/-- Characters the regex `.` does not match (JS without the `s` flag). -/
def isLineTerm (c : Char) : Bool :=
  c == '\n' || c == '\r' || c == Char.ofNat 0x2028 || c == Char.ofNat 0x2029

/-- The tail `[?&]v=([a-zA-Z0-9_-]{11})` of the third pattern, anchored. -/
def matchQVEq : List Char → Option (List Char)
  | q :: 'v' :: '=' :: rest =>
    if q == '?' || q == '&' then takeToken rest else none
  | _ => none

/-- The third pattern `youtube\.com\/.*[?&]v=([a-zA-Z0-9_-]{11})`, anchored
at the current position.  The greedy `.*` consumes the longest newline-free
gap for which the rest of the pattern still matches, so candidate gap
lengths are tried in decreasing order. -/
def matchPat3At (l : List Char) : Option (List Char) :=
  if startsWith preYtc l then
    let r := l.drop preYtc.length
    (List.range (r.length + 1)).reverse.findSome? fun i =>
      if (r.take i).all (fun c => !isLineTerm c) then matchQVEq (r.drop i)
      else none
  else none

/-- Embedding of `YouTubeParser.extractVideoId` on the character list: try the three
patterns in order, return the captured group of the first pattern that
matches anywhere in the input, else `null`. -/
def extractVideoIdL (l : List Char) : Option (List Char) :=
  (scanPat matchPat1At l).orElse fun _ =>
    (scanPat (matchPrefixToken preVPath) l).orElse fun _ =>
      scanPat matchPat3At l

/-- Embedding of `YouTubeParser.extractVideoId` (src/youtube-parser.ts).  Total by
construction (the source never throws). -/
def extractVideoId (url : String) : Option String :=
  (extractVideoIdL url.data).map String.mk

/-! ### Declarative accepted positions

Spec §4.1 / §8: a well-formed token in an "accepted URL position" is an
11-character alphabet token directly preceded by one of the literal
position markers of the patterns (watch-page query, short link, embed
player, bare `/v/` path), or preceded by `?v=`/`&v=` somewhere after an
occurrence of `youtube.com/`. -/

/-- The input contains a well-formed 11-character token in a position the
parser's patterns accept. -/
def HasAcceptedToken (url : List Char) : Prop :=
  (∃ a p t b, p ∈ [preWatch, preShort, preEmbed, preVPath] ∧
      url = a ++ p ++ t ++ b ∧ WellFormedToken t) ∨
  (∃ a m q t b, (q = '?' ∨ q = '&') ∧
      url = a ++ preYtc ++ m ++ q :: 'v' :: '=' :: (t ++ b) ∧ WellFormedToken t)

/-! ### `ApifyYouTubeProxy.extractVideoId` (src/main.js lines 136–140,
src/unnamed/part_002 lines 370–375)

```
const regex =
    /(?:youtube\.com\/(?:[^\/]+\/.+\/|(?:v|e(?:mbed)?)\/|.*[?&]v=)|youtu\.be\/)([^"&?\/\s]{11})/
const match = url.match(regex)
return match ? match[1] : null
```

The capture group uses the negative class `[^"&?\/\s]{11}`, not the
identifier alphabet.  Alternatives are tried in written order at each
position and the greedy quantifiers backtrack from the longest candidate. -/

/-- JavaScript `\s` (whitespace class). -/
def isJsSpace (c : Char) : Bool :=
  c == ' ' || c == '\t' || c == '\n' || c == Char.ofNat 0x0B ||
    c == Char.ofNat 0x0C || c == '\r' || c == Char.ofNat 0xA0 ||
    c == Char.ofNat 0x1680 || (0x2000 ≤ c.toNat && c.toNat ≤ 0x200A) ||
    c == Char.ofNat 0x2028 || c == Char.ofNat 0x2029 ||
    c == Char.ofNat 0x202F || c == Char.ofNat 0x205F ||
    c == Char.ofNat 0x3000 || c == Char.ofNat 0xFEFF

/-- A character of the negative class `[^"&?\/\s]`. -/
def isLooseTokenChar (c : Char) : Bool :=
  !(c == '"' || c == '&' || c == '?' || c == '/' || isJsSpace c)

/-- The capture group `([^"&?\/\s]{11})`. -/
def takeLooseToken (l : List Char) : Option (List Char) :=
  if (l.take 11).length = 11 && (l.take 11).all isLooseTokenChar then
    some (l.take 11)
  else none

/-- A literal followed by the loose capture group. -/
def matchPrefixLoose (p l : List Char) : Option (List Char) :=
  if startsWith p l then takeLooseToken (l.drop p.length) else none

/-- Length of the maximal leading run of non-`/` characters. -/
def countNonSlash : List Char → Nat
  | [] => 0
  | c :: rest => if c == '/' then 0 else countNonSlash rest + 1

/-- Inner alternative `[^\/]+\/.+\/` followed by the capture group.
`[^\/]+` must munch its whole maximal run (a shorter munch leaves a
non-slash where `\/` must match); `.+` backtracks from the longest
newline-free gap ending at a `/`. -/
def altPathPath (r : List Char) : Option (List Char) :=
  if countNonSlash r = 0 then none
  else
    match r.drop (countNonSlash r) with
    | '/' :: rest =>
      (List.range (rest.length + 1)).reverse.findSome? fun m =>
        if 1 ≤ m && (rest.take m).all (fun c => !isLineTerm c) then
          match rest.drop m with
          | '/' :: rest2 => takeLooseToken rest2
          | _ => none
        else none
    | _ => none

/-- Inner alternative `(?:v|e(?:mbed)?)\/`: candidate literals in engine
order `v/`, `embed/`, `e/`, followed by the capture group. -/
def altVEmbed (r : List Char) : Option (List Char) :=
  (matchPrefixLoose "v/".data r).orElse fun _ =>
    (matchPrefixLoose "embed/".data r).orElse fun _ =>
      matchPrefixLoose "e/".data r

/-- The loose variant of `[?&]v=` plus capture group. -/
def matchQVEqLoose : List Char → Option (List Char)
  | q :: 'v' :: '=' :: rest =>
    if q == '?' || q == '&' then takeLooseToken rest else none
  | _ => none

/-- Inner alternative `.*[?&]v=`: greedy gap, longest first. -/
def altQueryV (r : List Char) : Option (List Char) :=
  (List.range (r.length + 1)).reverse.findSome? fun i =>
    if (r.take i).all (fun c => !isLineTerm c) then matchQVEqLoose (r.drop i)
    else none

/-- The whole regex, anchored at the current position: top-level
alternation `youtube\.com\/(?:...)` then `youtu\.be\/`. -/
def mainMatchAt (l : List Char) : Option (List Char) :=
  (if startsWith preYtc l then
      (altPathPath (l.drop preYtc.length)).orElse fun _ =>
        (altVEmbed (l.drop preYtc.length)).orElse fun _ =>
          altQueryV (l.drop preYtc.length)
    else none).orElse fun _ =>
    matchPrefixLoose preShort l

/-- Embedding of `ApifyYouTubeProxy.extractVideoId` (src/main.js, src/unnamed/part_002):
single combined regex, `match ? match[1] : null`. -/
def mainJsExtractVideoId (url : String) : Option String :=
  (scanPat mainMatchAt url.data).map String.mk

/-- Scan for any 11-character identifier-alphabet run. -/
def hasIdRun11 : List Char → Bool
  | [] => false
  | c :: rest => (takeToken (c :: rest)).isSome || hasIdRun11 rest

/-! ### `YtDlpExtractor.pickMinimalAudioFormat` (src/unnamed/part_005)

```
static pickMinimalAudioFormat(formats) {
    const audioFormats = formats.filter((format) => {
        if (!format) return false
        const acodec = format.acodec || format.acodec === '' ? format.acodec : format.audio_codec
        return acodec && acodec !== 'none'
    })
    if (audioFormats.length === 0) return null
    const preferredItags = ['249', '250', '140', '251', '139']
    for (const itag of preferredItags) {
        const match = audioFormats.find((format) => format.format_id === itag)
        if (match) return match
    }
    const sorted = audioFormats
        .filter((format) => typeof format.abr === 'number' || typeof format.tbr === 'number')
        .sort((a, b) => {
            const aRate = typeof a.abr === 'number' ? a.abr : a.tbr ?? Number.POSITIVE_INFINITY
            const bRate = typeof b.abr === 'number' ? b.abr : b.tbr ?? Number.POSITIVE_INFINITY
            return aRate - bRate
        })
    if (sorted.length > 0) return sorted[0]
    return audioFormats[0]
}
```

Typed embedding: list entries are records (a `null` entry fails the
`!format` guard and is unrepresentable here); `undefined` fields are
`none`; bitrate fields are rationals.  `Array.sort` with this numeric
comparator is a stable sort (ES2019); a stable sort's output is uniquely
determined by the comparator and the input order, and is embedded as
`List.insertionSort`, which is stable. -/

/-- A yt-dlp format record, restricted to the fields this function reads. -/
structure YtFmt where
  format_id : Option String
  acodec : Option String
  audio_codec : Option String
  abr : Option ℚ
  tbr : Option ℚ
  deriving DecidableEq, Repr

/-- The ternary `format.acodec || format.acodec === '' ? format.acodec : format.audio_codec`:
the ternary condition holds whenever `acodec` is a string (truthy or empty),
so `audio_codec` is consulted only when `acodec` is undefined. -/
def fmtChosenCodec (f : YtFmt) : Option String :=
  if f.acodec.isSome then f.acodec else f.audio_codec

/-- The audio-capability filter `acodec && acodec !== 'none'`. -/
def isAudioFmt (f : YtFmt) : Bool :=
  match fmtChosenCodec f with
  | some v => !(v == "") && !(v == "none")
  | none => false

/-- The list `const preferredItags = ['249', '250', '140', '251', '139']`. -/
def preferredItags : List String := ["249", "250", "140", "251", "139"]

/-- The sort comparator's key:
`typeof abr === 'number' ? abr : tbr ?? Infinity`. -/
def rateKey (f : YtFmt) : WithTop ℚ :=
  match f.abr with
  | some a => (a : WithTop ℚ)
  | none =>
    match f.tbr with
    | some t => (t : WithTop ℚ)
    | none => ⊤

/-- Embedding of `YtDlpExtractor.pickMinimalAudioFormat`. -/
def pickMinimalAudioFormat (formats : List YtFmt) : Option YtFmt :=
  let audioFormats := formats.filter isAudioFmt
  if audioFormats.length = 0 then none
  else
    match preferredItags.findSome?
        (fun itag => audioFormats.find? fun f => f.format_id == some itag) with
    | some m => some m
    | none =>
      match List.insertionSort (fun a b => rateKey a ≤ rateKey b)
          (audioFormats.filter fun f => f.abr.isSome || f.tbr.isSome) with
      | s :: _ => some s
      | [] => audioFormats.head?

/-! ### `decodeSignatureCipher` (src/test.ts lines 720–753)

```
decodeSignatureCipher(signatureCipher) {
    try {
        const params = new URLSearchParams(signatureCipher)
        const url = params.get('url')
        const s = params.get('s')
        const sp = params.get('sp') || 'sig'
        if (!url) return null
        if (!s) return null
        const decodedUrl = `${decodeURIComponent(url)}&${sp}=${s}`
        return decodedUrl
    } catch (error) {
        return null
    }
}
```

`URLSearchParams` splits on `&`, skips empty segments, splits each segment
at its first `=`, and percent-plus-decodes names and values with the WHATWG
replacement decoder (never throws).  `decodeURIComponent` percent-decodes
strictly and throws `URIError` on a malformed escape or invalid UTF-8; the
only throwing operation inside the `try` block.  Both decoders work on a
token stream of raw characters and percent-decoded bytes. -/

/-- Value of a hexadecimal digit. -/
def hexVal (c : Char) : Option Nat :=
  if '0' ≤ c && c ≤ '9' then some (c.toNat - 48)
  else if 'A' ≤ c && c ≤ 'F' then some (c.toNat - 55)
  else if 'a' ≤ c && c ≤ 'f' then some (c.toNat - 87)
  else none

/-- Percent-decoding token: a decoded byte or a raw character. -/
inductive PTok where
  | byte (b : Nat)
  | chr (c : Char)
  deriving DecidableEq, Repr

/-- WHATWG percent-decoding pass: `%` followed by two hex digits becomes a
byte, otherwise `%` stays literal.  Never fails. -/
def lexLoose : List Char → List PTok
  | [] => []
  | '%' :: c1 :: c2 :: rest =>
    match hexVal c1, hexVal c2 with
    | some h1, some h2 => .byte (16 * h1 + h2) :: lexLoose rest
    | _, _ => .chr '%' :: lexLoose (c1 :: c2 :: rest)
  | c :: rest => .chr c :: lexLoose rest

/-- ECMA-262 `Decode` percent pass: `%` not followed by two hex digits
raises `URIError` (`none`). -/
def lexStrict : List Char → Option (List PTok)
  | [] => some []
  | '%' :: rest =>
    match rest with
    | c1 :: c2 :: rest2 =>
      match hexVal c1, hexVal c2 with
      | some h1, some h2 => (lexStrict rest2).map (.byte (16 * h1 + h2) :: ·)
      | _, _ => none
    | _ => none
  | c :: rest => (lexStrict rest).map (.chr c :: ·)

/-- A UTF-8 continuation byte. -/
def isCont (b : Nat) : Bool := 0x80 ≤ b && b ≤ 0xBF

/-- Admissible first continuation byte for a given leading byte (UTF-8
shortest-form and surrogate/range restrictions). -/
def contOK (lead b2 : Nat) : Bool :=
  if lead = 0xE0 then 0xA0 ≤ b2 && b2 ≤ 0xBF
  else if lead = 0xED then 0x80 ≤ b2 && b2 ≤ 0x9F
  else if lead = 0xF0 then 0x90 ≤ b2 && b2 ≤ 0xBF
  else if lead = 0xF4 then 0x80 ≤ b2 && b2 ≤ 0x8F
  else isCont b2

/-- Strict UTF-8 assembly of decoded bytes back into characters
(raw characters pass through); any invalid sequence raises (`none`). -/
def utf8AssembleStrict : List PTok → Option (List Char)
  | [] => some []
  | .chr c :: rest => (utf8AssembleStrict rest).map (c :: ·)
  | .byte b :: rest =>
    if b < 0x80 then (utf8AssembleStrict rest).map (Char.ofNat b :: ·)
    else if 0xC2 ≤ b && b ≤ 0xDF then
      match rest with
      | .byte b2 :: rest2 =>
        if isCont b2 then
          (utf8AssembleStrict rest2).map
            (Char.ofNat ((b - 0xC0) * 64 + (b2 - 0x80)) :: ·)
        else none
      | _ => none
    else if 0xE0 ≤ b && b ≤ 0xEF then
      match rest with
      | .byte b2 :: .byte b3 :: rest2 =>
        if contOK b b2 && isCont b3 then
          (utf8AssembleStrict rest2).map
            (Char.ofNat ((b - 0xE0) * 4096 + (b2 - 0x80) * 64 + (b3 - 0x80)) :: ·)
        else none
      | _ => none
    else if 0xF0 ≤ b && b ≤ 0xF4 then
      match rest with
      | .byte b2 :: .byte b3 :: .byte b4 :: rest2 =>
        if contOK b b2 && isCont b3 && isCont b4 then
          (utf8AssembleStrict rest2).map
            (Char.ofNat ((b - 0xF0) * 262144 + (b2 - 0x80) * 4096 +
              (b3 - 0x80) * 64 + (b4 - 0x80)) :: ·)
        else none
      | _ => none
    else none

/-- WHATWG replacement UTF-8 assembly, with explicit fuel (one token is
consumed per step, so fuel equal to the token count suffices): invalid
sequences become U+FFFD, advancing past the longest valid prefix, and
decoding continues.  Never fails. -/
def utf8LooseGo : Nat → List PTok → List Char
  | 0, _ => []
  | _, [] => []
  | fuel + 1, .chr c :: rest => c :: utf8LooseGo fuel rest
  | fuel + 1, .byte b :: rest =>
    if b < 0x80 then Char.ofNat b :: utf8LooseGo fuel rest
    else if 0xC2 ≤ b && b ≤ 0xDF then
      match rest with
      | .byte b2 :: rest2 =>
        if isCont b2 then
          Char.ofNat ((b - 0xC0) * 64 + (b2 - 0x80)) :: utf8LooseGo fuel rest2
        else Char.ofNat 0xFFFD :: utf8LooseGo fuel (.byte b2 :: rest2)
      | _ => Char.ofNat 0xFFFD :: utf8LooseGo fuel rest
    else if 0xE0 ≤ b && b ≤ 0xEF then
      match rest with
      | .byte b2 :: .byte b3 :: rest2 =>
        if contOK b b2 then
          if isCont b3 then
            Char.ofNat ((b - 0xE0) * 4096 + (b2 - 0x80) * 64 + (b3 - 0x80)) ::
              utf8LooseGo fuel rest2
          else Char.ofNat 0xFFFD :: utf8LooseGo fuel (.byte b3 :: rest2)
        else Char.ofNat 0xFFFD :: utf8LooseGo fuel (.byte b2 :: .byte b3 :: rest2)
      | .byte b2 :: rest2 =>
        if contOK b b2 then Char.ofNat 0xFFFD :: utf8LooseGo fuel rest2
        else Char.ofNat 0xFFFD :: utf8LooseGo fuel (.byte b2 :: rest2)
      | _ => Char.ofNat 0xFFFD :: utf8LooseGo fuel rest
    else if 0xF0 ≤ b && b ≤ 0xF4 then
      match rest with
      | .byte b2 :: .byte b3 :: .byte b4 :: rest2 =>
        if contOK b b2 then
          if isCont b3 then
            if isCont b4 then
              Char.ofNat ((b - 0xF0) * 262144 + (b2 - 0x80) * 4096 +
                (b3 - 0x80) * 64 + (b4 - 0x80)) :: utf8LooseGo fuel rest2
            else Char.ofNat 0xFFFD :: utf8LooseGo fuel (.byte b4 :: rest2)
          else Char.ofNat 0xFFFD :: utf8LooseGo fuel (.byte b3 :: .byte b4 :: rest2)
        else Char.ofNat 0xFFFD :: utf8LooseGo fuel (.byte b2 :: .byte b3 :: .byte b4 :: rest2)
      | .byte b2 :: .byte b3 :: rest2 =>
        if contOK b b2 && isCont b3 then Char.ofNat 0xFFFD :: utf8LooseGo fuel rest2
        else if contOK b b2 then Char.ofNat 0xFFFD :: utf8LooseGo fuel (.byte b3 :: rest2)
        else Char.ofNat 0xFFFD :: utf8LooseGo fuel (.byte b2 :: .byte b3 :: rest2)
      | .byte b2 :: rest2 =>
        if contOK b b2 then Char.ofNat 0xFFFD :: utf8LooseGo fuel rest2
        else Char.ofNat 0xFFFD :: utf8LooseGo fuel (.byte b2 :: rest2)
      | _ => Char.ofNat 0xFFFD :: utf8LooseGo fuel rest
    else Char.ofNat 0xFFFD :: utf8LooseGo fuel rest

/-- WHATWG replacement UTF-8 assembly of a whole token list. -/
def utf8AssembleLoose (toks : List PTok) : List Char :=
  utf8LooseGo toks.length toks

/-- WHATWG `application/x-www-form-urlencoded` value decoding: plus to
space, then percent-decode with replacement. -/
def formDecode (l : List Char) : String :=
  String.mk (utf8AssembleLoose (lexLoose (l.map fun c => if c == '+' then ' ' else c)))

/-- Split a segment at its first `=` (name, value); a segment without `=`
is a name with empty value. -/
def splitFirstEq : List Char → List Char × List Char
  | [] => ([], [])
  | '=' :: rest => ([], rest)
  | c :: rest =>
    let (k, v) := splitFirstEq rest
    (c :: k, v)

/-- Parsing `new URLSearchParams(init)`: strip one leading `?`, split on `&`, skip
empty segments, split each at the first `=`, form-decode names and values. -/
def parseSearchParams (init : String) : List (String × String) :=
  let s := match init.data with
    | '?' :: rest => rest
    | l => l
  ((s.splitOn '&').filter (fun piece => !piece.isEmpty)).map fun piece =>
    (formDecode (splitFirstEq piece).1, formDecode (splitFirstEq piece).2)

/-- Lookup `params.get(k)`: the first value under `k`, or null. -/
def getParam (params : List (String × String)) (k : String) : Option String :=
  (params.find? fun p => p.1 == k).map fun p => p.2

/-- Embedding of `decodeURIComponent`: strict percent pass then strict UTF-8 assembly;
`none` models the thrown `URIError`. -/
def decodeURIComponentE (s : String) : Option String :=
  ((lexStrict s.data).bind utf8AssembleStrict).map String.mk

/-- The default `params.get('sp') || 'sig'`: JavaScript falsiness defaults both a
missing and an empty `sp` to `"sig"`. -/
def spName (params : List (String × String)) : String :=
  match getParam params "sp" with
  | some v => if v = "" then "sig" else v
  | none => "sig"

/-- Embedding of `decodeSignatureCipher`: the `try` block's only throwing operation is
`decodeURIComponent`; the `catch` turns that throw into `null`, so the
whole function is total with `Option` result. -/
def decodeSignatureCipher (blob : String) : Option String :=
  let params := parseSearchParams blob
  match getParam params "url" with
  | none => none
  | some url =>
    match getParam params "s" with
    | none => none
    | some s =>
      match decodeURIComponentE url with
      | none => none
      | some du => some (du ++ "&" ++ spName params ++ "=" ++ s)

/-- Modelled from the claim's wording for C9 only: the appended parameter
name is the `sp` parameter's value, defaulting to `"sig"` solely when `sp`
is absent (an empty present value would be used as-is). -/
def claimSpName (params : List (String × String)) : String :=
  match getParam params "sp" with
  | some v => v
  | none => "sig"

/-! ### The R2 object store and the cache gate
(src/unnamed/part_002: `AUDIO_MIME_TYPES`, `resolveMimeType`,
`buildR2ObjectKey`, `buildCandidateKeys`, `findExistingR2Asset`)

The S3-compatible store is an association list from object keys to stored
objects; `HEAD` is first-match lookup, `PUT` overwrites the entry for an
existing key and appends otherwise.  The store is deterministic: a key is
either present or `NotFound` (transient non-404 errors, which the source
merely logs before probing the next key, are outside the model). -/

/-- Character-list lowercasing (extensionally `String.toLower`, stated on
`data` so that it computes). -/
def strToLower (s : String) : String := String.mk (s.data.map Char.toLower)

/-- A stored object as seen by `HeadObject` / written by `Upload`. -/
structure R2Obj where
  metadata : List (String × String)
  contentType : Option String
  etag : String
  lastModified : Nat
  size : Nat
  deriving DecidableEq, Repr

/-- The object store. -/
def Store := List (String × R2Obj)

/-- Operation `HEAD key`: metadata of the object at `key`, or `NotFound`. -/
def lookupObject (store : Store) (key : String) : Option R2Obj :=
  (List.find? (fun e => e.1 == key) store).map fun e => e.2

/-- Operation `PUT key`: overwrite the entry at `key` or append a new one (single
atomic put of the S3 contract). -/
def putObject : Store → String → R2Obj → Store
  | [], k, o => [(k, o)]
  | (k', o') :: rest, k, o =>
    if k' == k then (k, o) :: rest else (k', o') :: putObject rest k o

/-- Number of objects stored at a key. -/
def countKey (store : Store) (k : String) : Nat :=
  (List.filter (fun e => e.1 == k) store).length

/-- The table `AUDIO_MIME_TYPES` (src/unnamed/part_002 lines 35–41). -/
def audioMimeTypes : List (String × String) :=
  [("webm", "audio/webm"), ("m4a", "audio/mp4"), ("mp4", "audio/mp4"),
   ("mp3", "audio/mpeg"), ("opus", "audio/opus")]

/-- Embedding of `resolveMimeType(ext)`: falsy `ext` (undefined or empty) and unknown
extensions map to `application/octet-stream`. -/
def resolveMimeType (ext : Option String) : String :=
  match ext with
  | none => "application/octet-stream"
  | some e =>
    if e = "" then "application/octet-stream"
    else match (audioMimeTypes.find? fun p => p.1 == strToLower e).map (fun p => p.2) with
      | some m => m
      | none => "application/octet-stream"

/-- Embedding of `buildR2ObjectKey(videoId, ext)`:
`temp-audio/${videoId}.${(ext || 'mp4').toLowerCase()}` — a pure function
of the identifier and the container extension. -/
def buildR2ObjectKey (videoId : String) (ext : Option String) : String :=
  let safeExt := strToLower (match ext with
    | some e => if e = "" then "mp4" else e
    | none => "mp4")
  "temp-audio/" ++ videoId ++ "." ++ safeExt

/-- Deduplication `Array.from(new Set(list))`: first-occurrence deduplication. -/
def dedupFirst (l : List String) : List String :=
  l.foldl (fun acc x => if acc.contains x then acc else acc ++ [x]) []

/-- Embedding of `buildCandidateKeys(videoId)`: extension priority depends on the
minimize-size mode. -/
def buildCandidateKeys (minimizeSize : Bool) (videoId : String) : List String :=
  let prioritizedExts := if minimizeSize then ["webm", "m4a", "mp4", "mp3"]
    else ["m4a", "mp4", "webm", "mp3"]
  (dedupFirst prioritizedExts).map fun ext => buildR2ObjectKey videoId (some ext)

/-- A cache hit as returned by `findExistingR2Asset`. -/
structure CachedAsset where
  key : String
  metadata : List (String × String)
  contentType : String
  url : String
  etag : String
  lastModified : Nat
  size : Nat
  deriving DecidableEq, Repr

/-- The expression `key.split('.').pop()`. -/
def lastDotComponent (s : String) : Option String :=
  ((s.data.splitOn '.').map String.mk).getLast?

/-- The `CachedAsset` built from a `HEAD` hit at `key`. -/
def assetOf (bucket key : String) (o : R2Obj) : CachedAsset :=
  { key := key
    metadata := o.metadata
    contentType := match o.contentType with
      | some ct => if ct = "" then resolveMimeType (lastDotComponent key) else ct
      | none => resolveMimeType (lastDotComponent key)
    url := "https://" ++ bucket ++ ".r2.dev/" ++ key
    etag := o.etag
    lastModified := o.lastModified
    size := o.size }

/-- The probing loop of `findExistingR2Asset`: `HEAD` each candidate key in
order; the returned trace records which keys were probed, and probing stops
at the first hit. -/
def probeKeys (store : Store) : List String → List String × Option (String × R2Obj)
  | [] => ([], none)
  | k :: rest =>
    match lookupObject store k with
    | some o => ([k], some (k, o))
    | none =>
      let pr := probeKeys store rest
      (k :: pr.1, pr.2)

/-- Embedding of `findExistingR2Asset(videoId)` (src/unnamed/part_002 lines 416–450):
null when the R2 client or bucket is unconfigured; otherwise the first
candidate key with an existing object, decoded into a `CachedAsset`. -/
def findExistingR2Asset (r2Configured : Bool) (bucket : String) (store : Store)
    (minimizeSize : Bool) (videoId : String) : Option CachedAsset :=
  if r2Configured then
    match (probeKeys store (buildCandidateKeys minimizeSize videoId)).2 with
    | some (k, o) => some (assetOf bucket k o)
    | none => none
  else none

/-! ### The yt-dlp materializer (src/unnamed/part_002: `extractViaYtDlp`,
`buildObjectMetadata`; subprocess contract from src/unnamed/part_005:
`YtDlpExtractor.downloadAudioDirect`)

Effects are explicit parameters: the subprocess result is an oracle value
(`none` models a thrown subprocess error), the clock reads are the
`now`/`nowMs` parameters, and the upload's etag is the `etagNew` parameter
(the object store assigns it). -/

/-- The `formatMeta` record as produced by `downloadAudioDirect`. -/
structure FormatMeta where
  itag : Option String
  codec : Option String
  bitrateKbps : Option ℚ
  filesizeApprox : Option Nat
  deriving DecidableEq, Repr

/-- The subprocess result of `YtDlpExtractor.downloadAudioDirect`, plus the
length of the bytes read back from its output file. -/
structure YtDlpOut where
  filePath : Option String
  fileSizeBytes : Option Nat
  ext : Option String
  formatMeta : Option FormatMeta
  fileLength : Nat
  deriving DecidableEq, Repr

/-- The default `const ext = result.ext || 'mp4'` (JavaScript falsy default). -/
def defaultedExt (e : Option String) : String :=
  match e with
  | some x => if x = "" then "mp4" else x
  | none => "mp4"

/-- A truthy optional string (JavaScript `if (x)` on a string field). -/
def truthyStr (x : Option String) : Option String :=
  match x with
  | some v => if v = "" then none else some v
  | none => none

/-- Embedding of `buildObjectMetadata` (src/unnamed/part_002 lines 452–489): the fixed
entries, then each conditional entry in source order. -/
def buildObjectMetadata (videoId : String) (formatMeta : Option FormatMeta)
    (minimizeSize : Bool) (fileSizeBytes : Option Nat) (ext : Option String)
    (now : String) : List (String × String) :=
  [("video_id", videoId),
   ("method", "yt-dlp-direct"),
   ("extracted_at", now),
   ("minimize_size", if minimizeSize then "true" else "false"),
   ("audio_ext", strToLower (match ext with | some e => e | none => "")),
   ("whisper_ready", "true"),
   ("title", "yt-dlp extracted"),
   ("audio_quality", if minimizeSize then "AUDIO_QUALITY_MINIMIZED"
     else "AUDIO_QUALITY_HIGH")]
  ++ (match fileSizeBytes with
      | some n => [("file_size_bytes", toString n)]
      | none => [])
  ++ (match formatMeta with
      | none => []
      | some fm =>
        (match truthyStr fm.itag with
         | some i => [("ytdlp_format_id", i)]
         | none => [])
        ++ (match truthyStr fm.codec with
            | some c => [("audio_codec", c)]
            | none => [])
        ++ (match fm.bitrateKbps with
            | some q => [("audio_bitrate_kbps", toString (round q))]
            | none => [])
        ++ (match truthyStr fm.itag with
            | some i => [("format_used", i)]
            | none => [])
        ++ (match fm.filesizeApprox with
            | some n => if n = 0 then [] else [("source_filesize_bytes", toString n)]
            | none => []))

/-- The fallback `result.formatMeta?.codec || (ext === 'webm' ? 'opus' : 'mp4a.40.2')`. -/
def codecOf (formatMeta : Option FormatMeta) (ext : String) : String :=
  let dflt := if ext = "webm" then "opus" else "mp4a.40.2"
  match formatMeta with
  | some fm =>
    match truthyStr fm.codec with
    | some c => c
    | none => dflt
  | none => dflt

/-- The successful extraction/materialization result (the fields of the
object literals returned by `extractViaYtDlp` and the cached fast path of
`extractYouTubeVideo`; numeric echo fields are omitted). -/
structure ExtractResult where
  success : Bool
  videoId : String
  title : String
  audioQuality : String
  codec : String
  whisperAudioUrl : String
  r2Bucket : String
  r2Key : String
  r2Url : String
  etag : String
  extractionMethod : String
  extractedAt : String
  method : String
  ytDlpDirect : Bool
  cached : Bool
  deriving DecidableEq, Repr

/-- The object uploaded by `extractViaYtDlp`: metadata from
`buildObjectMetadata`, the resolved content type, and the upload result's
etag/timestamp/size. -/
def ytUploadObject (videoId now etagNew : String) (nowMs : Nat)
    (minimizeSize : Bool) (r : YtDlpOut) : R2Obj :=
  { metadata := buildObjectMetadata videoId r.formatMeta minimizeSize
      (some (r.fileSizeBytes.getD r.fileLength)) (some (defaultedExt r.ext)) now
    contentType := some (resolveMimeType (some (defaultedExt r.ext)))
    etag := etagNew
    lastModified := nowMs
    size := r.fileSizeBytes.getD r.fileLength }

/-- The success value returned by `extractViaYtDlp`. -/
def ytSuccessResult (minimizeSize : Bool) (b videoId now etagNew : String)
    (r : YtDlpOut) : ExtractResult :=
  { success := true
    videoId := videoId
    title := "yt-dlp extracted"
    audioQuality := if minimizeSize then "AUDIO_QUALITY_MINIMIZED"
      else "AUDIO_QUALITY_HIGH"
    codec := codecOf r.formatMeta (defaultedExt r.ext)
    whisperAudioUrl := "https://" ++ b ++ ".r2.dev/" ++
      buildR2ObjectKey videoId (some (defaultedExt r.ext))
    r2Bucket := b
    r2Key := buildR2ObjectKey videoId (some (defaultedExt r.ext))
    r2Url := "https://" ++ b ++ ".r2.dev/" ++
      buildR2ObjectKey videoId (some (defaultedExt r.ext))
    etag := etagNew
    extractionMethod := "yt-dlp-direct-download"
    extractedAt := now
    method := "yt-dlp-r2-direct"
    ytDlpDirect := true
    cached := false }

/-- Embedding of `extractViaYtDlp` (src/unnamed/part_002 lines 224–338): run the
subprocess, read the file, upload it to the key derived from
`(videoId, extension)`, delete the temporary file (deletion failure is
logged, non-fatal, and does not affect the result), and describe the
uploaded asset.  Errors are the thrown messages. -/
def extractViaYtDlp (r2Configured : Bool) (bucket : Option String)
    (minimizeSize : Bool) (store : Store) (oracle : Option YtDlpOut)
    (videoId now etagNew : String) (nowMs : Nat) :
    Except String (ExtractResult × Store) :=
  match oracle with
  | none => .error "yt-dlp direct download failed"
  | some r =>
    match r.filePath with
    | none => .error "yt-dlp did not return a file path"
    | some _ =>
      if r2Configured = false then .error "R2 client or bucket is not configured"
      else
        match truthyStr bucket with
        | none => .error "R2 client or bucket is not configured"
        | some b =>
          .ok (ytSuccessResult minimizeSize b videoId now etagNew r,
            putObject store (buildR2ObjectKey videoId (some (defaultedExt r.ext)))
              (ytUploadObject videoId now etagNew nowMs minimizeSize r))

/-! ### The legacy streaming uploader (src/unnamed/part_006:
`downloadAndUploadAudio`, lines 113–186)

```
const fileExtension = bestAudioFormat.mimeType.includes('mp4') ? 'mp4' :
                     bestAudioFormat.mimeType.includes('webm') ? 'webm' : 'audio'
const objectKey = `youtube-audio/${videoId}/${Date.now()}.${fileExtension}`
```

The object key embeds the wall clock, so it is not a function of the
identifier and the extension. -/

/-- Substring test on character lists. -/
def hasSubstr (l sub : List Char) : Bool :=
  match l with
  | [] => startsWith sub []
  | c :: rest => startsWith sub (c :: rest) || hasSubstr rest sub

/-- The legacy extension choice from the variant's MIME type. -/
def legacyFileExtension (mimeType : String) : String :=
  if hasSubstr mimeType.data "mp4".data then "mp4"
  else if hasSubstr mimeType.data "webm".data then "webm"
  else "audio"

/-- The legacy object key `youtube-audio/${videoId}/${Date.now()}.${ext}`. -/
def legacyObjectKey (videoId mimeType : String) (nowMs : Nat) : String :=
  "youtube-audio/" ++ videoId ++ "/" ++ toString nowMs ++ "." ++
    legacyFileExtension mimeType

/-- The legacy upload: a single PUT at the timestamped key. -/
def legacyUploadAudio (store : Store) (videoId mimeType : String) (nowMs : Nat)
    (o : R2Obj) : Store × String :=
  (putObject store (legacyObjectKey videoId mimeType nowMs) o,
   legacyObjectKey videoId mimeType nowMs)

/-! ### The cache-gated pipeline `extractYouTubeVideo`
(src/unnamed/part_002 lines 125–222; the part_003 variant wraps the same
cached fast path and extraction call in a proxy-plan loop)

The pipeline records an event trace: one `cacheProbe` per `HEAD` request
issued by the fast path, and `extractInvoke` when the yt-dlp extraction
strategy is started. -/

/-- Observable pipeline events. -/
inductive PipeEvent where
  | cacheProbe (key : String)
  | extractInvoke
  deriving DecidableEq, Repr

/-- The fallback `metadata.k || default` (JavaScript falsy fallback on a metadata map
field). -/
def metaGetD (m : List (String × String)) (k d : String) : String :=
  match (m.find? fun p => p.1 == k).map (fun p => p.2) with
  | some v => if v = "" then d else v
  | none => d

/-- The cached fast-path result (part_002 lines 149–193), built from the
`CachedAsset` the gate found; `cached: true`, extraction method
`yt-dlp-r2-cached`, and title/quality/codect/timestamps decoded from the
stored object metadata. -/
def cachedExtractResult (bucket : String) (a : CachedAsset)
    (videoId now : String) : ExtractResult :=
  { success := true
    videoId := videoId
    title := metaGetD a.metadata "title" "yt-dlp extracted (cached)"
    audioQuality := metaGetD a.metadata "audio_quality"
      (if (a.metadata.find? fun p => p.1 == "minimize_size").map (fun p => p.2)
          = some "true"
        then "AUDIO_QUALITY_MINIMIZED" else "AUDIO_QUALITY_HIGH")
    codec := metaGetD a.metadata "audio_codec" "unknown"
    whisperAudioUrl := a.url
    r2Bucket := bucket
    r2Key := a.key
    r2Url := a.url
    etag := a.etag
    extractionMethod := "yt-dlp-r2-cached"
    extractedAt := metaGetD a.metadata "extracted_at" now
    method := metaGetD a.metadata "method" "yt-dlp-r2-direct"
    ytDlpDirect := true
    cached := true }

/-- The `try { extractViaYtDlp } catch` tail of `extractYouTubeVideo`
(part_002 lines 197–221): in R2 mode a successful direct upload result is
returned as is; in non-R2 mode the result (which carries neither
`audioFormats` nor `url`) is rejected; every failure is rethrown as
`YouTube extraction failed`. -/
def extractAttemptPath (r2Configured : Bool) (bucket : Option String)
    (minimizeSize : Bool) (store : Store) (oracle : Option YtDlpOut)
    (videoId : String) (uploadToR2 : Bool) (now etagNew : String)
    (nowMs : Nat) : Except String ExtractResult × Store :=
  match extractViaYtDlp r2Configured bucket minimizeSize store oracle videoId
      now etagNew nowMs with
  | .ok (res, store') =>
    if uploadToR2 then (.ok res, store')
    else (.error "YouTube extraction failed", store')
  | .error _ => (.error "YouTube extraction failed", store)

/-- Embedding of `extractYouTubeVideo(videoUrl, uploadToR2)` (src/unnamed/part_002
lines 125–222): parse the identifier with the combined regex, and when
upload mode is on and R2 is configured, probe the candidate cache keys
first and return the cached asset on a hit, invoking the extraction
strategy only on a miss. -/
def extractYouTubeVideo (r2Configured : Bool) (bucket : Option String)
    (minimizeSize : Bool) (store : Store) (oracle : Option YtDlpOut)
    (videoUrl : String) (uploadToR2 : Bool) (now etagNew : String)
    (nowMs : Nat) : Except String ExtractResult × Store × List PipeEvent :=
  match mainJsExtractVideoId videoUrl with
  | none => (.error "Invalid YouTube URL", store, [])
  | some videoId =>
    match uploadToR2 && r2Configured, truthyStr bucket with
    | true, some b =>
      let pk := probeKeys store (buildCandidateKeys minimizeSize videoId)
      match pk.2 with
      | some (k, o) =>
        (.ok (cachedExtractResult b (assetOf b k o) videoId now), store,
          pk.1.map PipeEvent.cacheProbe)
      | none =>
        let tail := extractAttemptPath r2Configured bucket minimizeSize store
          oracle videoId uploadToR2 now etagNew nowMs
        (tail.1, tail.2, pk.1.map PipeEvent.cacheProbe ++ [PipeEvent.extractInvoke])
    | _, _ =>
      let tail := extractAttemptPath r2Configured bucket minimizeSize store
        oracle videoId uploadToR2 now etagNew nowMs
      (tail.1, tail.2, [PipeEvent.extractInvoke])

/-! ### The strategy chain of `YouTubeParser.extractVideoInfo`
(src/youtube-parser.ts lines 58–90)

```
const methods = [
    () => this.extractFromEmbedded(videoId),
    () => this.extractFromMobile(videoId),
    () => this.extractFromTvEmbedded(videoId),
    () => this.extractFromWebPlayer(videoId),
    () => this.extractFromOEmbed(videoId),
]
let lastError: Error | null = null
for (const method of methods) {
    try {
        const result = await method()
        if (result.videoUrl || result.audioUrl) return result
    } catch (error) {
        lastError = error as Error
        continue
    }
}
throw new Error(`All extraction methods failed. Last error: ${lastError?.message || 'Unknown error'}`)
```

Each method's behaviour is an oracle outcome: it either throws with a
message or returns a `VideoInfo` (a returned value without a usable URL is
skipped without touching `lastError`).  The terminal error carries only
`lastError` — the information retained from the attempts. -/

/-- The `VideoInfo` fields the loop inspects. -/
structure VideoInfoUrls where
  videoUrl : Option String
  audioUrl : Option String
  deriving DecidableEq, Repr

/-- One strategy invocation's outcome. -/
inductive MethodOutcome where
  | threw (msg : String)
  | returned (v : VideoInfoUrls)
  deriving DecidableEq, Repr

/-- The number of strategies in the chain (the five `methods` entries). -/
def numStrategies : Nat := 5

/-- The retry loop with its running `lastError`. -/
def runExtractLoop : List MethodOutcome → Option String →
    Except (Option String) VideoInfoUrls
  | [], lastError => .error lastError
  | .returned v :: rest, lastError =>
    if v.videoUrl.isSome || v.audioUrl.isSome then .ok v
    else runExtractLoop rest lastError
  | .threw m :: rest, _ => runExtractLoop rest (some m)

/-- Embedding of `YouTubeParser.extractVideoInfo` over the strategy outcomes: the
success value, or the terminal error payload (`lastError`, embedded into
the thrown message). -/
def extractVideoInfo (outcomes : List MethodOutcome) :
    Except (Option String) VideoInfoUrls :=
  runExtractLoop outcomes none

/-- The attempt records the terminal error actually carries: the last
stored error message, or nothing. -/
def errorProvenance : Option String → List String
  | some m => [m]
  | none => []

/-- An outcome on which the loop does not return: a throw, or a returned
value without any usable URL. -/
def isFailedOutcome : MethodOutcome → Bool
  | .threw _ => true
  | .returned v => !(v.videoUrl.isSome || v.audioUrl.isSome)

/-- The last thrown message in a run, if any. -/
def lastThrown : List MethodOutcome → Option String
  | [] => none
  | .threw m :: rest =>
    (match lastThrown rest with
     | some m' => some m'
     | none => some m)
  | .returned _ :: rest => lastThrown rest

/-! ## Theorems -/

theorem startsWith_iff {p l : List Char} : startsWith p l = true ↔ p <+: l := by
  induction p generalizing l with
  | nil => simp [startsWith]
  | cons a as ih =>
    cases l with
    | nil => simp [startsWith]
    | cons b bs => simp [startsWith, List.cons_prefix_cons, ih]

/-! ### Soundness of the matcher: any successful match exhibits a
well-formed token in an accepted position. -/

theorem takeToken_eq_some {l t : List Char} (h : takeToken l = some t) :
    t = l.take 11 ∧ WellFormedToken t := by
  unfold takeToken at h
  split at h
  · rename_i hc
    simp only [Bool.and_eq_true, decide_eq_true_eq, List.all_eq_true] at hc
    cases h
    exact ⟨rfl, hc.1, hc.2⟩
  · exact absurd h (by simp)

theorem takeToken_of_wf {t : List Char} (h : WellFormedToken t) :
    takeToken t = some t := by
  obtain ⟨hlen, hall⟩ := h
  unfold takeToken
  rw [List.take_of_length_le (le_of_eq hlen)]
  have hb : (decide (t.length = 11) && t.all isIdChar) = true := by
    simp only [hlen, Bool.and_eq_true, decide_eq_true_eq, List.all_eq_true]
    exact ⟨trivial, hall⟩
  rw [if_pos hb]

theorem scanPat_some {f : List Char → Option (List Char)} {l v : List Char}
    (h : scanPat f l = some v) : ∃ a b, l = a ++ b ∧ f b = some v := by
  induction l with
  | nil => exact ⟨[], [], rfl, h⟩
  | cons c rest ih =>
    rw [scanPat] at h
    cases hf : f (c :: rest) with
    | some w =>
      refine ⟨[], c :: rest, rfl, ?_⟩
      rw [hf] at h ⊢
      exact h
    | none =>
      rw [hf] at h
      obtain ⟨a, b, hab, hfb⟩ := ih h
      exact ⟨c :: a, b, by rw [hab]; rfl, hfb⟩

theorem matchPrefixToken_some {p l t : List Char}
    (h : matchPrefixToken p l = some t) :
    ∃ rest, l = p ++ t ++ rest ∧ WellFormedToken t := by
  unfold matchPrefixToken at h
  split at h
  · rename_i hp
    obtain ⟨hteq, hwf⟩ := takeToken_eq_some h
    obtain ⟨r, hr⟩ := startsWith_iff.mp hp
    have hdrop : l.drop p.length = r := by rw [← hr]; simp
    refine ⟨r.drop 11, ?_, hwf⟩
    rw [hdrop] at hteq
    rw [← hr, hteq, List.append_assoc, List.take_append_drop]
  · exact absurd h (by simp)

theorem matchQVEq_some {s t : List Char} (h : matchQVEq s = some t) :
    ∃ q rest, (q = '?' ∨ q = '&') ∧ s = q :: 'v' :: '=' :: (t ++ rest) ∧
      WellFormedToken t := by
  unfold matchQVEq at h
  split at h
  · rename_i q rest
    split at h
    · rename_i hq
      obtain ⟨hteq, hwf⟩ := takeToken_eq_some h
      refine ⟨q, rest.drop 11, ?_, ?_, hwf⟩
      · rcases Bool.or_eq_true _ _ |>.mp hq with h' | h'
        · exact Or.inl (by simpa using h')
        · exact Or.inr (by simpa using h')
      · rw [hteq, List.take_append_drop]
    · exact absurd h (by simp)
  · exact absurd h (by simp)

theorem matchPat3At_some {l t : List Char} (h : matchPat3At l = some t) :
    ∃ m q rest, (q = '?' ∨ q = '&') ∧
      l = preYtc ++ m ++ q :: 'v' :: '=' :: (t ++ rest) ∧ WellFormedToken t := by
  unfold matchPat3At at h
  split at h
  · rename_i hp
    obtain ⟨i, hmem, hi⟩ := List.exists_of_findSome?_eq_some h
    obtain ⟨r, hr⟩ := startsWith_iff.mp hp
    split at hi
    · obtain ⟨q, rest, hq, hsplit, hwf⟩ := matchQVEq_some hi
      have hdrop : l.drop preYtc.length = r := by rw [← hr]; simp
      rw [hdrop] at hsplit
      refine ⟨r.take i, q, rest, hq, ?_, hwf⟩
      rw [← hr]
      conv_lhs => rw [show r = r.take i ++ r.drop i from (List.take_append_drop _ _).symm]
      rw [hsplit, List.append_assoc]
    · exact absurd hi (by simp)
  · exact absurd h (by simp)

theorem matchPat1At_some {l t : List Char} (h : matchPat1At l = some t) :
    ∃ p rest, p ∈ [preWatch, preShort, preEmbed] ∧ l = p ++ t ++ rest ∧
      WellFormedToken t := by
  unfold matchPat1At at h
  cases h1 : matchPrefixToken preWatch l with
  | some w =>
    rw [h1] at h
    obtain ⟨rest, hl, hwf⟩ := matchPrefixToken_some h1
    cases h
    exact ⟨preWatch, rest, by simp, hl, hwf⟩
  | none =>
    rw [h1] at h
    cases h2 : matchPrefixToken preShort l with
    | some w =>
      rw [h2] at h
      obtain ⟨rest, hl, hwf⟩ := matchPrefixToken_some h2
      cases h
      exact ⟨preShort, rest, by simp, hl, hwf⟩
    | none =>
      rw [h2] at h
      obtain ⟨rest, hl, hwf⟩ := matchPrefixToken_some h
      exact ⟨preEmbed, rest, by simp, hl, hwf⟩

theorem startsWith_eq_false_of_dot (p l : List Char) (hdot : '.' ∈ p)
    (hall : ∀ c ∈ l, isIdChar c = true) : startsWith p l = false := by
  by_contra h
  rw [Bool.not_eq_false] at h
  have hid := hall '.' ((startsWith_iff.mp h).subset hdot)
  exact absurd hid (by decide)

theorem scanPat1_none_of_id {t : List Char} (hall : ∀ c ∈ t, isIdChar c = true) :
    scanPat matchPat1At t = none := by
  induction t with
  | nil => rfl
  | cons c cs ih =>
    have hcs : ∀ x ∈ cs, isIdChar x = true := fun x hx => hall x (List.mem_cons_of_mem _ hx)
    have h1 : matchPat1At (c :: cs) = none := by
      unfold matchPat1At matchPrefixToken
      rw [startsWith_eq_false_of_dot preWatch (c :: cs) (by decide) hall,
        startsWith_eq_false_of_dot preShort (c :: cs) (by decide) hall,
        startsWith_eq_false_of_dot preEmbed (c :: cs) (by decide) hall]
      rfl
    rw [scanPat, h1, ih hcs]
    rfl

theorem scan1_watch (t : List Char) (h : WellFormedToken t) :
    scanPat matchPat1At ("https://www.youtube.com/watch?v=".data ++ t) = some t := by
  rw [show scanPat matchPat1At ("https://www.youtube.com/watch?v=".data ++ t)
      = ((takeToken t).orElse fun _ =>
          (matchPrefixToken preShort ("youtube.com/watch?v=".data ++ t)).orElse fun _ =>
            matchPrefixToken preEmbed ("youtube.com/watch?v=".data ++ t)).orElse fun _ =>
          scanPat matchPat1At ("outube.com/watch?v=".data ++ t) from rfl]
  rw [takeToken_of_wf h]
  rfl

theorem scan1_short (t : List Char) (h : WellFormedToken t) :
    scanPat matchPat1At ("https://youtu.be/".data ++ t) = some t := by
  rw [show scanPat matchPat1At ("https://youtu.be/".data ++ t)
      = ((takeToken t).orElse fun _ =>
          matchPrefixToken preEmbed ("youtu.be/".data ++ t)).orElse fun _ =>
          scanPat matchPat1At ("outu.be/".data ++ t) from rfl]
  rw [takeToken_of_wf h]
  rfl

theorem scan1_embed (t : List Char) (h : WellFormedToken t) :
    scanPat matchPat1At ("https://www.youtube.com/embed/".data ++ t) = some t := by
  rw [show scanPat matchPat1At ("https://www.youtube.com/embed/".data ++ t)
      = (takeToken t).orElse fun _ =>
          scanPat matchPat1At ("outube.com/embed/".data ++ t) from rfl]
  rw [takeToken_of_wf h]
  rfl

theorem scan2_vpath (t : List Char) (h : WellFormedToken t) :
    scanPat (matchPrefixToken preVPath) ("https://www.youtube.com/v/".data ++ t) = some t := by
  rw [show scanPat (matchPrefixToken preVPath) ("https://www.youtube.com/v/".data ++ t)
      = (takeToken t).orElse fun _ =>
          scanPat (matchPrefixToken preVPath) ("outube.com/v/".data ++ t) from rfl]
  rw [takeToken_of_wf h]
  rfl

theorem scan1_vpath_none (t : List Char) (hall : ∀ c ∈ t, isIdChar c = true) :
    scanPat matchPat1At ("https://www.youtube.com/v/".data ++ t) = none := by
  rw [show scanPat matchPat1At ("https://www.youtube.com/v/".data ++ t)
      = scanPat matchPat1At t from rfl]
  exact scanPat1_none_of_id hall

theorem extractVideoIdL_sound {l t : List Char}
    (h : extractVideoIdL l = some t) : HasAcceptedToken l ∧ WellFormedToken t := by
  unfold extractVideoIdL at h
  cases h1 : scanPat matchPat1At l with
  | some w =>
    rw [h1] at h
    have hw : w = t := by simpa using h
    subst hw
    obtain ⟨a, b, hab, hfb⟩ := scanPat_some h1
    obtain ⟨p, rest, hp, hb, hwf⟩ := matchPat1At_some hfb
    refine ⟨Or.inl ⟨a, p, w, rest, ?_, ?_, hwf⟩, hwf⟩
    · simp at hp ⊢; tauto
    · rw [hab, hb]; simp
  | none =>
    rw [h1] at h
    cases h2 : scanPat (matchPrefixToken preVPath) l with
    | some w =>
      rw [h2] at h
      have hw : w = t := by simpa using h
      subst hw
      obtain ⟨a, b, hab, hfb⟩ := scanPat_some h2
      obtain ⟨rest, hb, hwf⟩ := matchPrefixToken_some hfb
      refine ⟨Or.inl ⟨a, preVPath, w, rest, by simp, ?_, hwf⟩, hwf⟩
      rw [hab, hb]; simp
    | none =>
      rw [h2] at h
      cases h3 : scanPat matchPat3At l with
      | some w =>
        rw [h3] at h
        have hw : w = t := by simpa using h
        subst hw
        obtain ⟨a, b, hab, hfb⟩ := scanPat_some h3
        obtain ⟨m, q, rest, hq, hb, hwf⟩ := matchPat3At_some hfb
        refine ⟨Or.inr ⟨a, m, q, w, rest, hq, ?_, hwf⟩, hwf⟩
        rw [hab, hb]; simp
      | none => rw [h3] at h; exact absurd h (by simp)

/-- C8: for every well-formed 11-character token, each accepted URL shape
(canonical watch page, short link, embed player, bare `/v/` path) carrying
that token parses to exactly that token; in particular
`https://youtu.be/dQw4w9WgXcQ` parses to `dQw4w9WgXcQ`. -/
theorem extractVideoId_accepted_shapes (t : List Char) (h : WellFormedToken t) :
    extractVideoId (String.mk ("https://www.youtube.com/watch?v=".data ++ t))
        = some (String.mk t) ∧
    extractVideoId (String.mk ("https://youtu.be/".data ++ t))
        = some (String.mk t) ∧
    extractVideoId (String.mk ("https://www.youtube.com/embed/".data ++ t))
        = some (String.mk t) ∧
    extractVideoId (String.mk ("https://www.youtube.com/v/".data ++ t))
        = some (String.mk t) ∧
    extractVideoId "https://youtu.be/dQw4w9WgXcQ" = some "dQw4w9WgXcQ" := by
  refine ⟨?_, ?_, ?_, ?_, by decide⟩
  · show (extractVideoIdL ("https://www.youtube.com/watch?v=".data ++ t)).map String.mk = _
    rw [extractVideoIdL, scan1_watch t h]
    rfl
  · show (extractVideoIdL ("https://youtu.be/".data ++ t)).map String.mk = _
    rw [extractVideoIdL, scan1_short t h]
    rfl
  · show (extractVideoIdL ("https://www.youtube.com/embed/".data ++ t)).map String.mk = _
    rw [extractVideoIdL, scan1_embed t h]
    rfl
  · show (extractVideoIdL ("https://www.youtube.com/v/".data ++ t)).map String.mk = _
    rw [extractVideoIdL, scan1_vpath_none t h.2, scan2_vpath t h]
    rfl

/-- Witness for C8 at the concrete token `dQw4w9WgXcQ`. -/
theorem extractVideoId_accepted_shapes_witness :
    extractVideoId "https://youtu.be/dQw4w9WgXcQ" = some "dQw4w9WgXcQ" :=
  (extractVideoId_accepted_shapes "dQw4w9WgXcQ".data (by decide)).2.2.2.2

/-- C10: a URL whose token position carries a 12-character identifier-alphabet
run is not rejected: the parser returns the first 11 characters of the run,
because the patterns have no right-hand boundary after the group. -/
theorem extractVideoId_twelve_char_run :
    extractVideoId "https://youtu.be/abcdefghijkl" = some "abcdefghijk" ∧
    extractVideoId "https://www.youtube.com/watch?v=abcdefghijkl" = some "abcdefghijk" := by
  constructor <;> decide

theorem hasIdRun11_of_decomp (a t b : List Char) (h : WellFormedToken t) :
    hasIdRun11 (a ++ t ++ b) = true := by
  induction a with
  | nil =>
    obtain ⟨hlen, hall⟩ := h
    cases t with
    | nil => simp at hlen
    | cons c cs =>
      have htk : takeToken ((c :: cs) ++ b) = some (c :: cs) := by
        unfold takeToken
        rw [show ((c :: cs) ++ b).take 11 = c :: cs by
          rw [← hlen]; exact List.take_left _ _]
        have hb : (decide ((c :: cs).length = 11) && (c :: cs).all isIdChar) = true := by
          simp only [hlen, Bool.and_eq_true, decide_eq_true_eq, List.all_eq_true]
          exact ⟨trivial, hall⟩
        rw [if_pos hb]
      show ((takeToken ((c :: cs) ++ b)).isSome || hasIdRun11 (cs ++ b)) = true
      rw [htk]
      rfl
  | cons x xs ih =>
    show ((takeToken (x :: (xs ++ t ++ b))).isSome || hasIdRun11 (xs ++ t ++ b)) = true
    rw [ih]
    exact Bool.or_true _

theorem not_hasAcceptedToken_of_no_run {l : List Char}
    (h : hasIdRun11 l = false) : ¬ HasAcceptedToken l := by
  intro hat
  rcases hat with ⟨a, p, t, b, _, heq, hwf⟩ | ⟨a, m, q, t, b, _, heq, hwf⟩
  · have := hasIdRun11_of_decomp (a ++ p) t b hwf
    rw [heq] at h
    simp only [List.append_assoc] at this h
    rw [this] at h
    exact Bool.true_eq_false.mp h
  · have := hasIdRun11_of_decomp (a ++ preYtc ++ m ++ [q, 'v', '=']) t b hwf
    rw [heq] at h
    simp only [List.append_assoc, List.cons_append, List.nil_append] at this h
    rw [this] at h
    exact Bool.true_eq_false.mp h

/-- C3 counterexample: `https://youtu.be/!!!!!!!!!!!` contains no 11-character
token from the identifier alphabet in any position, yet the combined-regex
parser `ApifyYouTubeProxy.extractVideoId` returns a non-null identifier,
because its capture group is the negative class `[^"&?\/\s]{11}`. -/
theorem mainJs_extractVideoId_accepts_nonalphabet :
    mainJsExtractVideoId "https://youtu.be/!!!!!!!!!!!" = some "!!!!!!!!!!!" ∧
    ¬ HasAcceptedToken "https://youtu.be/!!!!!!!!!!!".data := by
  exact ⟨by decide, not_hasAcceptedToken_of_no_run (by decide)⟩

/-- C3 (amended): `YouTubeParser.extractVideoId` never throws (it is a total
function) and returns a non-null result only when the input contains a
well-formed 11-character identifier-alphabet token in an accepted URL
position; contrapositively, every input without such a token parses to
`null`. -/
theorem extractVideoId_sound {url v : String}
    (h : extractVideoId url = some v) :
    HasAcceptedToken url.data ∧ WellFormedToken v.data := by
  unfold extractVideoId at h
  cases he : extractVideoIdL url.data with
  | none => rw [he] at h; exact absurd h (by simp)
  | some t =>
    rw [he] at h
    simp only [Option.map_some'] at h
    obtain ⟨hat, hwf⟩ := extractVideoIdL_sound he
    cases h
    exact ⟨hat, hwf⟩

/-- Witness for the amended C3: a successful parse on a token-carrying URL,
discharging the hypothesis at a concrete input. -/
theorem extractVideoId_sound_witness :
    HasAcceptedToken "https://youtu.be/dQw4w9WgXcQ".data ∧
      WellFormedToken "dQw4w9WgXcQ".data :=
  extractVideoId_sound (show extractVideoId "https://youtu.be/dQw4w9WgXcQ"
    = some "dQw4w9WgXcQ" by decide)

/-- C2 counterexample: under the minimize-size policy a preferred-itag
variant (itag `140`, bitrate hint 128) is selected even though another
audio-capable, resolvable candidate in the same input list carries a
strictly smaller bitrate hint (48): the fixed itag preference list is
consulted before any bitrate comparison. -/
theorem pickMinimalAudioFormat_itag_over_bitrate :
    pickMinimalAudioFormat
        [⟨some "140", some "mp4a.40.2", none, some 128, none⟩,
         ⟨some "600", some "opus", none, some 48, none⟩]
      = some ⟨some "140", some "mp4a.40.2", none, some 128, none⟩ ∧
    rateKey ⟨some "600", some "opus", none, some 48, none⟩
      < rateKey ⟨some "140", some "mp4a.40.2", none, some 128, none⟩ := by
  constructor
  · rfl
  · rw [show rateKey ⟨some "600", some "opus", none, some 48, none⟩
        = ((48 : ℚ) : WithTop ℚ) from rfl,
      show rateKey ⟨some "140", some "mp4a.40.2", none, some 128, none⟩
        = ((128 : ℚ) : WithTop ℚ) from rfl]
    exact_mod_cast by norm_num

/-- C2 (amended): the minimal-bitrate guarantee holds only on the itag-free
path: if no audio-capable variant carries a preferred itag, the selected
variant's rate key (`abr`, else `tbr`, missing hints being `⊤`) does not
exceed that of any audio-capable candidate carrying a numeric hint, and the
selected variant itself carries a numeric hint whenever any candidate does
(variants without hints are excluded from the sort and can only be returned
from the `audioFormats[0]` fallback). -/
theorem pickMinimalAudioFormat_min_when_no_preferred_itag
    (formats : List YtFmt) (r g : YtFmt)
    (hnp : ∀ f ∈ formats.filter isAudioFmt, ∀ itag ∈ preferredItags,
      ¬ f.format_id = some itag)
    (hg : g ∈ formats.filter isAudioFmt)
    (hghint : (g.abr.isSome || g.tbr.isSome) = true)
    (hr : pickMinimalAudioFormat formats = some r) :
    rateKey r ≤ rateKey g ∧ (r.abr.isSome || r.tbr.isSome) = true := by
  unfold pickMinimalAudioFormat at hr
  have hne : ¬ (formats.filter isAudioFmt).length = 0 := by
    intro h0
    rw [List.length_eq_zero] at h0
    rw [h0] at hg
    exact absurd hg (List.not_mem_nil _)
  rw [if_neg hne] at hr
  have hfs : preferredItags.findSome?
      (fun itag => (formats.filter isAudioFmt).find? fun f => f.format_id == some itag)
      = none := by
    rw [List.findSome?_eq_none_iff]
    intro itag hitag
    rw [List.find?_eq_none]
    intro f hf
    simp only [beq_iff_eq]
    exact hnp f hf itag hitag
  rw [hfs] at hr
  haveI htot : IsTotal YtFmt (fun a b => rateKey a ≤ rateKey b) :=
    ⟨fun a b => le_total _ _⟩
  haveI htr : IsTrans YtFmt (fun a b => rateKey a ≤ rateKey b) :=
    ⟨fun a b c hab hbc => le_trans hab hbc⟩
  have hgh : g ∈ (formats.filter isAudioFmt).filter (fun f => f.abr.isSome || f.tbr.isSome) := by
    rw [List.mem_filter]
    exact ⟨hg, hghint⟩
  have hgm : g ∈ List.insertionSort (fun a b => rateKey a ≤ rateKey b)
      ((formats.filter isAudioFmt).filter fun f => f.abr.isSome || f.tbr.isSome) := by
    rw [List.mem_insertionSort]
    exact hgh
  cases hms : List.insertionSort (fun a b => rateKey a ≤ rateKey b)
      ((formats.filter isAudioFmt).filter fun f => f.abr.isSome || f.tbr.isSome) with
  | nil => rw [hms] at hgm; exact absurd hgm (List.not_mem_nil _)
  | cons s rest =>
    rw [hms] at hr hgm
    have hsr : s = r := by simpa using hr
    subst hsr
    have hpw := List.sorted_insertionSort (fun a b => rateKey a ≤ rateKey b)
      ((formats.filter isAudioFmt).filter fun f => f.abr.isSome || f.tbr.isSome)
    rw [hms] at hpw
    have hsmem : s ∈ (formats.filter isAudioFmt).filter
        (fun f => f.abr.isSome || f.tbr.isSome) := by
      have hin : s ∈ List.insertionSort (fun a b => rateKey a ≤ rateKey b)
          ((formats.filter isAudioFmt).filter fun f => f.abr.isSome || f.tbr.isSome) := by
        rw [hms]
        exact List.mem_cons_self _ _
      rwa [List.mem_insertionSort] at hin
    constructor
    · rcases List.mem_cons.mp hgm with hgs | hgrest
      · rw [hgs]
      · exact (List.pairwise_cons.mp hpw).1 g hgrest
    · exact (List.mem_filter.mp hsmem).2

/-- Witness for the amended C2 at a concrete format list without preferred
itags: the 48 kbps opus variant is picked over the 128 kbps one. -/
theorem pickMinimalAudioFormat_min_witness :
    rateKey ⟨some "600", some "opus", none, some 48, none⟩
        ≤ rateKey ⟨some "601", some "opus", none, some 128, none⟩ ∧
      ((⟨some "600", some "opus", none, some 48, none⟩ : YtFmt).abr.isSome
        || (YtFmt.tbr ⟨some "600", some "opus", none, some 48, none⟩).isSome) = true :=
  pickMinimalAudioFormat_min_when_no_preferred_itag
    [⟨some "601", some "opus", none, some 128, none⟩,
     ⟨some "600", some "opus", none, some 48, none⟩]
    ⟨some "600", some "opus", none, some 48, none⟩
    ⟨some "601", some "opus", none, some 128, none⟩
    (by decide)
    (List.mem_cons_self _ _)
    (by decide) rfl

/-- C7: the cipher resolver is total (its result type is `Option`, the
`catch` block maps the one throwing operation to `null`), and it returns
`null` exactly when reconstruction fails: missing `url` parameter, missing
`s` parameter, or `decodeURIComponent` raising on the `url` value.  No
failure escapes to the caller as an exception. -/
theorem decodeSignatureCipher_total_null_on_failure (blob : String) :
    decodeSignatureCipher blob = none ↔
      (getParam (parseSearchParams blob) "url" = none ∨
       getParam (parseSearchParams blob) "s" = none ∨
       (∃ u, getParam (parseSearchParams blob) "url" = some u ∧
         decodeURIComponentE u = none)) := by
  unfold decodeSignatureCipher
  cases hu : getParam (parseSearchParams blob) "url" with
  | none => simp [hu]
  | some u =>
    cases hs : getParam (parseSearchParams blob) "s" with
    | none => simp [hu, hs]
    | some sv =>
      cases hd : decodeURIComponentE u with
      | none => simp [hu, hs, hd]
      | some du => simp [hu, hs, hd]

/-- C9 counterexample: on a cipher blob whose `sp` parameter is present but
empty, the code's JavaScript falsy check `params.get('sp') || 'sig'` falls
back to `sig`, while the claim's rule (default only when `sp` is absent)
would use the empty name: the outputs differ. -/
theorem decodeSignatureCipher_empty_sp :
    decodeSignatureCipher "url=u&s=sv&sp=" = some "u&sig=sv" ∧
    getParam (parseSearchParams "url=u&s=sv&sp=") "sp" = some "" ∧
    decodeSignatureCipher "url=u&s=sv&sp="
      ≠ some ("u" ++ "&" ++ claimSpName (parseSearchParams "url=u&s=sv&sp=") ++ "=" ++ "sv") := by
  refine ⟨by decide, by decide, ?_⟩
  intro h
  rw [show claimSpName (parseSearchParams "url=u&s=sv&sp=") = "" from by decide] at h
  exact absurd (by decide : decodeSignatureCipher "url=u&s=sv&sp=" ≠ some ("u" ++ "&" ++ "" ++ "=" ++ "sv")) (by simp [h])

/-- C9 (amended): whenever the parameter set carries both a `url` and a
signature `s`, and `decodeURIComponent` succeeds on the `url` value, the
resolver returns exactly that decoded value with `&`, the `sp` parameter
name (defaulting to `sig` when `sp` is absent or present but empty), `=`,
and the `s` value appended; the signature token is appended untransformed,
with no descrambling applied. -/
theorem decodeSignatureCipher_success_formula (blob u sv du : String)
    (hu : getParam (parseSearchParams blob) "url" = some u)
    (hs : getParam (parseSearchParams blob) "s" = some sv)
    (hd : decodeURIComponentE u = some du) :
    decodeSignatureCipher blob
      = some (du ++ "&" ++ spName (parseSearchParams blob) ++ "=" ++ sv) := by
  unfold decodeSignatureCipher
  simp only [hu, hs, hd]

/-- Witness for the amended C9 at a concrete percent-encoded blob. -/
theorem decodeSignatureCipher_success_formula_witness :
    decodeSignatureCipher "s=AB12&sp=sig2&url=https%3A%2F%2Fe.com%2Fv"
      = some ("https://e.com/v" ++ "&" ++
          spName (parseSearchParams "s=AB12&sp=sig2&url=https%3A%2F%2Fe.com%2Fv") ++
          "=" ++ "AB12") :=
  decodeSignatureCipher_success_formula
    "s=AB12&sp=sig2&url=https%3A%2F%2Fe.com%2Fv"
    "https://e.com/v" "AB12" "https://e.com/v"
    (by decide) (by decide) (by decide)

theorem probeKeys_none_iff (store : Store) (keys : List String) :
    (probeKeys store keys).2 = none ↔ ∀ k ∈ keys, lookupObject store k = none := by
  induction keys with
  | nil => simp [probeKeys]
  | cons k rest ih =>
    rw [probeKeys]
    cases hk : lookupObject store k with
    | some o => simp [hk]
    | none => simpa [hk] using ih

theorem probeKeys_hit (store : Store) (keys : List String) (i : Nat)
    (hi : i < keys.length) (o : R2Obj)
    (hhit : lookupObject store (keys.get ⟨i, hi⟩) = some o)
    (hmiss : ∀ j (hj : j < i), lookupObject store (keys.get ⟨j, lt_trans hj hi⟩) = none) :
    probeKeys store keys = (keys.take (i + 1), some (keys.get ⟨i, hi⟩, o)) := by
  induction keys generalizing i with
  | nil => exact absurd hi (by simp)
  | cons k rest ih =>
    cases i with
    | zero =>
      simp only [List.get] at hhit
      rw [probeKeys, hhit]
      simp
    | succ n =>
      have hk0 : lookupObject store k = none := by
        have := hmiss 0 (Nat.succ_pos n)
        simpa using this
      rw [probeKeys, hk0]
      have hn : n < rest.length := by simpa using hi
      have hmiss' : ∀ j (hj : j < n),
          lookupObject store (rest.get ⟨j, lt_trans hj hn⟩) = none := by
        intro j hj
        have := hmiss (j + 1) (by omega)
        simpa using this
      have hhit' : lookupObject store (rest.get ⟨n, hn⟩) = some o := by
        simpa using hhit
      rw [ih n hn hhit' hmiss']
      simp

/-- C6: the cache lookup probes the candidate keys in the declared
extension-priority order, returns the first existing object decoded as a
`CachedAsset` without probing any further key, and returns null exactly
when no candidate key has an object. -/
theorem findExistingR2Asset_priority_order (store : Store) (bucket videoId : String)
    (minimizeSize : Bool) (i : Nat) (o : R2Obj)
    (hi : i < (buildCandidateKeys minimizeSize videoId).length)
    (hhit : lookupObject store ((buildCandidateKeys minimizeSize videoId).get ⟨i, hi⟩) = some o)
    (hmiss : ∀ j (hj : j < i),
      lookupObject store ((buildCandidateKeys minimizeSize videoId).get ⟨j, lt_trans hj hi⟩) = none) :
    findExistingR2Asset true bucket store minimizeSize videoId
        = some (assetOf bucket ((buildCandidateKeys minimizeSize videoId).get ⟨i, hi⟩) o) ∧
    (probeKeys store (buildCandidateKeys minimizeSize videoId)).1
        = (buildCandidateKeys minimizeSize videoId).take (i + 1) ∧
    (findExistingR2Asset true bucket store minimizeSize videoId = none ↔
      ∀ k ∈ buildCandidateKeys minimizeSize videoId, lookupObject store k = none) := by
  have hpk := probeKeys_hit store (buildCandidateKeys minimizeSize videoId) i hi o hhit hmiss
  refine ⟨?_, ?_, ?_⟩
  · unfold findExistingR2Asset
    rw [if_pos rfl, hpk]
  · rw [hpk]
  · unfold findExistingR2Asset
    rw [if_pos rfl]
    cases hp : (probeKeys store (buildCandidateKeys minimizeSize videoId)).2 with
    | some ko =>
      constructor
      · intro h
        exact absurd h (by simp)
      · intro hall
        rw [(probeKeys_none_iff _ _).mpr hall] at hp
        exact absurd hp (by simp)
    | none =>
      simp only [true_iff]
      exact (probeKeys_none_iff _ _).mp hp

/-- Witness for C6: with minimize-size priority `webm` before `m4a` and
objects stored under both extensions, the `webm` asset is returned and only
the `webm` key is probed. -/
theorem findExistingR2Asset_priority_order_witness :
    findExistingR2Asset true "bkt"
        [("temp-audio/dQw4w9WgXcQ.m4a", ⟨[("audio_ext", "m4a")], some "audio/mp4", "em", 4, 90⟩),
         ("temp-audio/dQw4w9WgXcQ.webm", ⟨[("audio_ext", "webm")], some "audio/webm", "ew", 5, 80⟩)]
        true "dQw4w9WgXcQ"
        = some (assetOf "bkt" ((buildCandidateKeys true "dQw4w9WgXcQ").get ⟨0, by decide⟩)
            ⟨[("audio_ext", "webm")], some "audio/webm", "ew", 5, 80⟩) ∧
    (probeKeys
        [("temp-audio/dQw4w9WgXcQ.m4a", ⟨[("audio_ext", "m4a")], some "audio/mp4", "em", 4, 90⟩),
         ("temp-audio/dQw4w9WgXcQ.webm", ⟨[("audio_ext", "webm")], some "audio/webm", "ew", 5, 80⟩)]
        (buildCandidateKeys true "dQw4w9WgXcQ")).1
        = (buildCandidateKeys true "dQw4w9WgXcQ").take (0 + 1) ∧
    (findExistingR2Asset true "bkt"
        [("temp-audio/dQw4w9WgXcQ.m4a", ⟨[("audio_ext", "m4a")], some "audio/mp4", "em", 4, 90⟩),
         ("temp-audio/dQw4w9WgXcQ.webm", ⟨[("audio_ext", "webm")], some "audio/webm", "ew", 5, 80⟩)]
        true "dQw4w9WgXcQ" = none ↔
      ∀ k ∈ buildCandidateKeys true "dQw4w9WgXcQ",
        lookupObject
          [("temp-audio/dQw4w9WgXcQ.m4a", ⟨[("audio_ext", "m4a")], some "audio/mp4", "em", 4, 90⟩),
           ("temp-audio/dQw4w9WgXcQ.webm", ⟨[("audio_ext", "webm")], some "audio/webm", "ew", 5, 80⟩)]
          k = none) :=
  findExistingR2Asset_priority_order _ "bkt" "dQw4w9WgXcQ" true 0
    ⟨[("audio_ext", "webm")], some "audio/webm", "ew", 5, 80⟩
    (by decide) (by decide)
    (fun j hj => absurd hj (Nat.not_lt_zero j))

theorem countKey_cons (k k' : String) (o' : R2Obj) (rest : Store) :
    countKey ((k', o') :: rest) k = (if k' == k then 1 else 0) + countKey rest k := by
  rw [countKey, countKey, List.filter]
  cases h : (k' == k) with
  | true => simp [h, Nat.add_comm]
  | false => simp [h]

theorem lookupObject_putObject_self (s : Store) (k : String) (o : R2Obj) :
    lookupObject (putObject s k o) k = some o := by
  induction s with
  | nil => simp [putObject, lookupObject, List.find?]
  | cons e rest ih =>
    obtain ⟨k', o'⟩ := e
    rw [putObject]
    by_cases hk : (k' == k) = true
    · rw [if_pos hk]
      simp [lookupObject, List.find?]
    · rw [if_neg hk]
      rw [lookupObject, List.find?_cons_of_neg]
      · exact ih
      · simpa using hk

theorem countKey_putObject (s : Store) (k : String) (o : R2Obj)
    (h : countKey s k ≤ 1) : countKey (putObject s k o) k = 1 := by
  induction s with
  | nil => simp [putObject, countKey, List.filter]
  | cons e rest ih =>
    obtain ⟨k', o'⟩ := e
    rw [putObject]
    by_cases hk : (k' == k) = true
    · rw [if_pos hk]
      rw [countKey_cons k k' o' rest] at h
      rw [countKey_cons]
      rw [if_pos hk] at h
      simp only [beq_self_eq_true, if_pos]
      omega
    · rw [if_neg hk]
      rw [countKey_cons k k' o' rest, if_neg hk] at h
      rw [countKey_cons k k' o' (putObject rest k o), if_neg hk]
      simpa using ih (by omega)

/-- C4 counterexample: the legacy materializer's object key embeds the
clock, so for the same identifier and container extension two
materializations at different instants derive different keys and leave two
objects in the store, not one. -/
theorem legacyObjectKey_not_deterministic :
    legacyObjectKey "dQw4w9WgXcQ" "audio/mp4" 1000
      ≠ legacyObjectKey "dQw4w9WgXcQ" "audio/mp4" 2000 ∧
    ((legacyUploadAudio
        (legacyUploadAudio [] "dQw4w9WgXcQ" "audio/mp4" 1000
          ⟨[("videoId", "dQw4w9WgXcQ")], some "audio/mp4", "e1", 1000, 10⟩).1
        "dQw4w9WgXcQ" "audio/mp4" 2000
        ⟨[("videoId", "dQw4w9WgXcQ")], some "audio/mp4", "e2", 2000, 10⟩).1).length
      = 2 := by
  constructor
  · decide
  · rfl

/-- C4 (amended): the yt-dlp materializer's key `temp-audio/<id>.<ext>` is a
pure function of identifier and extension, so materializing the same
identifier twice (same subprocess extension) writes to the same key and
leaves exactly one object there, whose stored object carries the second
call's metadata, etag and timestamp.  The legacy streaming uploader of
src/unnamed/part_006 does not have this property (its key embeds the
clock). -/
theorem materialize_twice_single_object (store : Store) (r : YtDlpOut)
    (fp videoId b now1 now2 etag1 etag2 : String) (n1 n2 : Nat)
    (minimizeSize : Bool)
    (hfp : r.filePath = some fp) (hb : ¬b = "")
    (hcnt : countKey store (buildR2ObjectKey videoId (some (defaultedExt r.ext))) ≤ 1) :
    ∃ res1 store1 res2 store2,
      extractViaYtDlp true (some b) minimizeSize store (some r) videoId now1 etag1 n1
          = .ok (res1, store1) ∧
      extractViaYtDlp true (some b) minimizeSize store1 (some r) videoId now2 etag2 n2
          = .ok (res2, store2) ∧
      res1.r2Key = buildR2ObjectKey videoId (some (defaultedExt r.ext)) ∧
      res2.r2Key = res1.r2Key ∧
      countKey store2 (buildR2ObjectKey videoId (some (defaultedExt r.ext))) = 1 ∧
      lookupObject store2 (buildR2ObjectKey videoId (some (defaultedExt r.ext)))
        = some (ytUploadObject videoId now2 etag2 n2 minimizeSize r) := by
  obtain ⟨rfp, rfs, rext, rfm, rlen⟩ := r
  simp only [YtDlpOut.filePath] at hfp
  subst hfp
  have hbt : truthyStr (some b) = some b := by
    simp [truthyStr, hb]
  have h1 : extractViaYtDlp true (some b) minimizeSize store
      (some ⟨some fp, rfs, rext, rfm, rlen⟩) videoId now1 etag1 n1
      = .ok (ytSuccessResult minimizeSize b videoId now1 etag1 ⟨some fp, rfs, rext, rfm, rlen⟩,
          putObject store
            (buildR2ObjectKey videoId (some (defaultedExt (YtDlpOut.mk (some fp) rfs rext rfm rlen).ext)))
            (ytUploadObject videoId now1 etag1 n1 minimizeSize ⟨some fp, rfs, rext, rfm, rlen⟩)) := by
    unfold extractViaYtDlp
    rw [hbt]
    rfl
  have h2 : extractViaYtDlp true (some b) minimizeSize
      (putObject store
        (buildR2ObjectKey videoId (some (defaultedExt (YtDlpOut.mk (some fp) rfs rext rfm rlen).ext)))
        (ytUploadObject videoId now1 etag1 n1 minimizeSize ⟨some fp, rfs, rext, rfm, rlen⟩))
      (some ⟨some fp, rfs, rext, rfm, rlen⟩) videoId now2 etag2 n2
      = .ok (ytSuccessResult minimizeSize b videoId now2 etag2 ⟨some fp, rfs, rext, rfm, rlen⟩,
          putObject
            (putObject store
              (buildR2ObjectKey videoId (some (defaultedExt (YtDlpOut.mk (some fp) rfs rext rfm rlen).ext)))
              (ytUploadObject videoId now1 etag1 n1 minimizeSize ⟨some fp, rfs, rext, rfm, rlen⟩))
            (buildR2ObjectKey videoId (some (defaultedExt (YtDlpOut.mk (some fp) rfs rext rfm rlen).ext)))
            (ytUploadObject videoId now2 etag2 n2 minimizeSize ⟨some fp, rfs, rext, rfm, rlen⟩)) := by
    unfold extractViaYtDlp
    rw [hbt]
    rfl
  refine ⟨_, _, _, _, h1, h2, rfl, rfl, ?_, ?_⟩
  · exact countKey_putObject _ _ _ (le_of_eq (countKey_putObject _ _ _ hcnt))
  · exact lookupObject_putObject_self _ _ _

/-- Witness for the amended C4: two concrete materializations of the same
identifier with extension `m4a` on an empty store. -/
theorem materialize_twice_single_object_witness :
    ∃ res1 store1 res2 store2,
      extractViaYtDlp true (some "bkt") true []
          (some ⟨some "/tmp/audio_dQw4w9WgXcQ.m4a", some 1000, some "m4a", none, 1000⟩)
          "dQw4w9WgXcQ" "t1" "e1" 1
          = .ok (res1, store1) ∧
      extractViaYtDlp true (some "bkt") true store1
          (some ⟨some "/tmp/audio_dQw4w9WgXcQ.m4a", some 1000, some "m4a", none, 1000⟩)
          "dQw4w9WgXcQ" "t2" "e2" 2
          = .ok (res2, store2) ∧
      res1.r2Key = buildR2ObjectKey "dQw4w9WgXcQ"
        (some (defaultedExt (YtDlpOut.mk (some "/tmp/audio_dQw4w9WgXcQ.m4a")
          (some 1000) (some "m4a") none 1000).ext)) ∧
      res2.r2Key = res1.r2Key ∧
      countKey store2 (buildR2ObjectKey "dQw4w9WgXcQ"
        (some (defaultedExt (YtDlpOut.mk (some "/tmp/audio_dQw4w9WgXcQ.m4a")
          (some 1000) (some "m4a") none 1000).ext))) = 1 ∧
      lookupObject store2 (buildR2ObjectKey "dQw4w9WgXcQ"
        (some (defaultedExt (YtDlpOut.mk (some "/tmp/audio_dQw4w9WgXcQ.m4a")
          (some 1000) (some "m4a") none 1000).ext)))
        = some (ytUploadObject "dQw4w9WgXcQ" "t2" "e2" 2 true
            ⟨some "/tmp/audio_dQw4w9WgXcQ.m4a", some 1000, some "m4a", none, 1000⟩) :=
  materialize_twice_single_object []
    ⟨some "/tmp/audio_dQw4w9WgXcQ.m4a", some 1000, some "m4a", none, 1000⟩
    "/tmp/audio_dQw4w9WgXcQ.m4a" "dQw4w9WgXcQ" "bkt" "t1" "t2" "e1" "e2" 1 2 true
    rfl (by decide) (by decide)

/-- C1: when upload mode is on, R2 is configured, and an object exists
under some candidate cache key for the parsed identifier, the pipeline
returns the cached result (marked `cached`, method `yt-dlp-r2-cached`)
without invoking the extraction strategy: no `extractInvoke` event occurs,
and the store is untouched. -/
theorem extractYouTubeVideo_cache_short_circuit (store : Store)
    (oracle : Option YtDlpOut) (url videoId b now etagNew : String)
    (minimizeSize : Bool) (nowMs : Nat)
    (hid : mainJsExtractVideoId url = some videoId)
    (hb : ¬b = "")
    (hhit : ∃ k ∈ buildCandidateKeys minimizeSize videoId,
      lookupObject store k ≠ none) :
    ∃ res events,
      extractYouTubeVideo true (some b) minimizeSize store oracle url true
          now etagNew nowMs
        = (.ok res, store, events) ∧
      res.cached = true ∧
      res.extractionMethod = "yt-dlp-r2-cached" ∧
      PipeEvent.extractInvoke ∉ events := by
  have hbt : truthyStr (some b) = some b := by simp [truthyStr, hb]
  cases hp : (probeKeys store (buildCandidateKeys minimizeSize videoId)).2 with
  | none =>
    obtain ⟨k, hk, hne⟩ := hhit
    exact absurd ((probeKeys_none_iff _ _).mp hp k hk) hne
  | some ko =>
    obtain ⟨k, o⟩ := ko
    refine ⟨cachedExtractResult b (assetOf b k o) videoId now,
      (probeKeys store (buildCandidateKeys minimizeSize videoId)).1.map
        PipeEvent.cacheProbe, ?_, rfl, rfl, ?_⟩
    · unfold extractYouTubeVideo
      rw [hid]
      show (match (true && true : Bool), truthyStr (some b) with
        | true, some b => _
        | _, _ => _) = _
      rw [hbt]
      simp only [Bool.and_self]
      rw [hp]
    · intro hmem
      obtain ⟨a, _, habs⟩ := List.mem_map.mp hmem
      exact PipeEvent.noConfusion habs

/-- Witness for C1: concrete store holding a cached `webm` object for
`dQw4w9WgXcQ`; upload mode on, R2 configured. -/
theorem extractYouTubeVideo_cache_short_circuit_witness :
    ∃ res events,
      extractYouTubeVideo true (some "bkt") true
          [("temp-audio/dQw4w9WgXcQ.webm",
            ⟨[("title", "t"), ("minimize_size", "true")], some "audio/webm", "ew", 5, 80⟩)]
          (some ⟨some "/tmp/audio_dQw4w9WgXcQ.webm", some 80, some "webm", none, 80⟩)
          "https://youtu.be/dQw4w9WgXcQ" true "t0" "e0" 7
        = (.ok res,
            [("temp-audio/dQw4w9WgXcQ.webm",
              ⟨[("title", "t"), ("minimize_size", "true")], some "audio/webm", "ew", 5, 80⟩)],
            events) ∧
      res.cached = true ∧
      res.extractionMethod = "yt-dlp-r2-cached" ∧
      PipeEvent.extractInvoke ∉ events :=
  extractYouTubeVideo_cache_short_circuit
    [("temp-audio/dQw4w9WgXcQ.webm",
      ⟨[("title", "t"), ("minimize_size", "true")], some "audio/webm", "ew", 5, 80⟩)]
    (some ⟨some "/tmp/audio_dQw4w9WgXcQ.webm", some 80, some "webm", none, 80⟩)
    "https://youtu.be/dQw4w9WgXcQ" "dQw4w9WgXcQ" "bkt" "t0" "e0" true 7
    (by decide) (by decide)
    ⟨"temp-audio/dQw4w9WgXcQ.webm", by decide, by decide⟩

/-- C5 counterexample: when all five strategies throw (distinct errors),
the pipeline's terminal error carries only the last attempt's message — a
provenance list of length 1, not one entry per strategy. -/
theorem extractVideoInfo_exhaustion_last_only :
    extractVideoInfo [.threw "e1", .threw "e2", .threw "e3", .threw "e4", .threw "e5"]
      = .error (some "e5") ∧
    (errorProvenance (some "e5")).length = 1 ∧
    numStrategies = 5 ∧
    (errorProvenance (some "e5")).length ≠ numStrategies := by
  refine ⟨rfl, rfl, rfl, by decide⟩

theorem runExtractLoop_all_failed (outcomes : List MethodOutcome)
    (hfail : ∀ o ∈ outcomes, isFailedOutcome o = true) (le : Option String) :
    runExtractLoop outcomes le
      = .error (match lastThrown outcomes with
                | some m => some m
                | none => le) := by
  induction outcomes generalizing le with
  | nil => rfl
  | cons o rest ih =>
    have hrest : ∀ x ∈ rest, isFailedOutcome x = true :=
      fun x hx => hfail x (List.mem_cons_of_mem _ hx)
    cases o with
    | threw m =>
      rw [runExtractLoop, lastThrown, ih hrest]
      cases lastThrown rest <;> rfl
    | returned v =>
      have hv := hfail (.returned v) (List.mem_cons_self _ _)
      rw [isFailedOutcome, Bool.not_eq_true'] at hv
      rw [runExtractLoop, if_neg (by rw [hv]; exact Bool.false_ne_true), lastThrown]
      exact ih hrest le

/-- C5 (amended): when every strategy fails (throws, or returns no usable
URL), the pipeline raises a terminal error that carries only the last
thrown message — at most one attempt record, not a provenance list of
length `numStrategies`. -/
theorem extractVideoInfo_exhaustion (outcomes : List MethodOutcome)
    (hfail : ∀ o ∈ outcomes, isFailedOutcome o = true) :
    extractVideoInfo outcomes = .error (lastThrown outcomes) ∧
    (errorProvenance (lastThrown outcomes)).length ≤ 1 := by
  constructor
  · rw [extractVideoInfo, runExtractLoop_all_failed outcomes hfail none]
    cases lastThrown outcomes <;> rfl
  · cases lastThrown outcomes <;> simp [errorProvenance]

/-- Witness for the amended C5 at five concrete throwing strategies. -/
theorem extractVideoInfo_exhaustion_witness :
    extractVideoInfo [.threw "e1", .threw "e2", .threw "e3", .threw "e4", .threw "e5"]
      = .error (lastThrown [.threw "e1", .threw "e2", .threw "e3", .threw "e4", .threw "e5"]) ∧
    (errorProvenance (lastThrown
        [.threw "e1", .threw "e2", .threw "e3", .threw "e4", .threw "e5"])).length ≤ 1 :=
  extractVideoInfo_exhaustion
    [.threw "e1", .threw "e2", .threw "e3", .threw "e4", .threw "e5"]
    (by decide)

end YtAudio
